import Mathlib

/-!
Verification of the PSD viewer core (src/psd_gui.py): the binary record
decoder `parse_bin_file`, the charge-column reader `read_qlong_qshort`,
the derived-metric / threshold-filter / histogram pipeline of
`PSDApp.update_plots`, and the app state it maintains.

Bytes are modelled as natural numbers (each below 256 in every concrete
input); machine integers are `Nat`/`Int` with explicit two's-complement
reinterpretation for the signed fields; the float arithmetic of numpy is
modelled over `ℚ` (qLong and qShort are 32-bit integers, so the quotient
qShort/qLong is exactly representable reasoning aside, and is finite in
float64 iff qLong is nonzero; `1 - qShort/qLong` is then finite iff
qLong is nonzero, which is how the `np.isfinite` mask is rendered here).
-/

/-- Little-endian value of a list of bytes, least significant first. -/
def leNat : List ℕ → ℕ
  | [] => 0
  | b :: bs => b + 256 * leNat bs

/-- Reinterpret an unsigned `w`-bit value as a two's-complement signed integer. -/
def toSigned (w v : ℕ) : ℤ :=
  if v < 2 ^ (w - 1) then (v : ℤ) else (v : ℤ) - 2 ^ w

/-- Read an unsigned little-endian field of `len` bytes at offset `off`. -/
def readU (bs : List ℕ) (off len : ℕ) : ℕ :=
  leNat ((bs.drop off).take len)

/-- Read a signed little-endian field of `len` bytes at offset `off`. -/
def readS (bs : List ℕ) (off len : ℕ) : ℤ :=
  toSigned (8 * len) (readU bs off len)

/-- Size in bytes of one record: struct format `<4B I H Q h h h h i i h I I H 4B`. -/
def recordSize : ℕ := 50

/-- One decoded record, fields in the order of the struct format string
and of the CSV header in `save_to_csv`. -/
structure RawEventRecord where
  title1 : ℕ
  title2 : ℕ
  title3 : ℕ
  title4 : ℕ
  deviceId : ℕ
  channelId : ℕ
  timestamp : ℕ
  cfd_y1 : ℤ
  cfd_y2 : ℤ
  heigth : ℤ
  baseline : ℤ
  qLong : ℤ
  qShort : ℤ
  psdValue : ℤ
  eventCounter : ℕ
  eventCounterPSD : ℕ
  decimationFactor : ℕ
  postfix1 : ℕ
  postfix2 : ℕ
  postfix3 : ℕ
  postfix4 : ℕ
  deriving Repr, DecidableEq

/-- Decode one 50-byte chunk (`struct.unpack('<4B I H Q h h h h i i h I I H 4B', chunk)`). -/
def decodeRecord (bs : List ℕ) : RawEventRecord where
  title1 := readU bs 0 1
  title2 := readU bs 1 1
  title3 := readU bs 2 1
  title4 := readU bs 3 1
  deviceId := readU bs 4 4
  channelId := readU bs 8 2
  timestamp := readU bs 10 8
  cfd_y1 := readS bs 18 2
  cfd_y2 := readS bs 20 2
  heigth := readS bs 22 2
  baseline := readS bs 24 2
  qLong := readS bs 26 4
  qShort := readS bs 30 4
  psdValue := readS bs 34 2
  eventCounter := readU bs 36 4
  eventCounterPSD := readU bs 40 4
  decimationFactor := readU bs 44 2
  postfix1 := readU bs 46 1
  postfix2 := readU bs 47 1
  postfix3 := readU bs 48 1
  postfix4 := readU bs 49 1

/-- The decode loop of `parse_bin_file`: repeatedly take a full record-size
chunk and decode it, stopping as soon as fewer than `recordSize` bytes
remain. `fuel` bounds the number of iterations; since every iteration
consumes `recordSize ≥ 1` bytes, `fuel = bs.length` always suffices. -/
def parseRecordsAux : ℕ → List ℕ → List RawEventRecord
  | 0, _ => []
  | fuel + 1, bs =>
    if bs.length < recordSize then []
    else decodeRecord (bs.take recordSize) :: parseRecordsAux fuel (bs.drop recordSize)

/-- Decode all complete records of a byte stream. -/
def parseRecords (bs : List ℕ) : List RawEventRecord :=
  parseRecordsAux bs.length bs

/-- `parse_bin_file`: skip the 8-byte preamble (`f.read(8)`), then decode
complete records until fewer than one record's bytes remain. -/
def parse_bin_file (bs : List ℕ) : List RawEventRecord :=
  parseRecords (bs.drop 8)

/-- `read_qlong_qshort`: walk the rows of the CSV produced by `save_to_csv`
(an exact round-trip for the integer fields, so it is modelled directly on
the decoded records), keep a row's qLong and qShort — appended to the two
parallel output arrays under one shared condition — iff `qLong > 0` and
`qShort >= 0`. Rows that fail to parse are skipped; rows written by
`save_to_csv` from decoded records always parse. -/
def read_qlong_qshort (records : List RawEventRecord) : List ℤ × List ℤ :=
  let kept := records.filter (fun r => decide (0 < r.qLong ∧ 0 ≤ r.qShort))
  (kept.map (fun r => r.qLong), kept.map (fun r => r.qShort))

/-- Lines 135-138 of `update_plots`: `psd = 1 - qshort / qlong` elementwise
over the two parallel arrays, then `mask_valid = np.isfinite(psd)` applied
to both `psd` and `qlong`. For integer inputs of 32-bit magnitude the
float64 quotient is finite iff the denominator is nonzero, so the mask is
rendered as the filter `qlong ≠ 0`, and the retained rows become pairs
`(qLong, 1 - qShort/qLong)` over `ℚ`. -/
def derivedEvents (qlong qshort : List ℤ) : List (ℤ × ℚ) :=
  ((qlong.zip qshort).filter (fun p => decide (p.1 ≠ 0))).map
    (fun p => (p.1, 1 - (p.2 : ℚ) / (p.1 : ℚ)))

/-- Lines 140-147 of `update_plots`: when the PSD filter checkbox is
checked, keep only events with `psd > threshold`; otherwise keep all
valid events unchanged. -/
def applyThreshold (events : List (ℤ × ℚ)) (enabled : Bool) (threshold : ℚ) :
    List (ℤ × ℚ) :=
  if enabled then events.filter (fun e => decide (threshold < e.2)) else events

/-- Edge `i` of `n` uniform bins over `[lo, hi]`, as produced by
`np.linspace(lo, hi, n + 1)`. -/
def binEdge (lo hi : ℚ) (n i : ℕ) : ℚ :=
  lo + (i : ℚ) * ((hi - lo) / (n : ℚ))

/-- Membership of a value in bin `i` under the semantics of `np.histogram`
with monotone edges: every bin is half-open `[edge i, edge (i+1))` except
the last, which is closed `[edge (n-1), edge n]`. -/
def binMemB (lo hi : ℚ) (n i : ℕ) (v : ℚ) : Bool :=
  decide (binEdge lo hi n i ≤ v) &&
    (if i + 1 = n then decide (v ≤ binEdge lo hi n n)
     else decide (v < binEdge lo hi n (i + 1)))

/-- Count of input values landing in bin `i`. -/
def binCount (values : List ℚ) (lo hi : ℚ) (n i : ℕ) : ℕ :=
  values.countP (binMemB lo hi n i)

/-- `np.histogram(values, bins=np.linspace(lo, hi, n+1))`: the list of per-bin counts. -/
def histogram (values : List ℚ) (lo hi : ℚ) (n : ℕ) : List ℕ :=
  (List.range n).map (binCount values lo hi n)

/-- Bin centers, `(bin_edges[:-1] + bin_edges[1:]) / 2`. -/
def binCenters (lo hi : ℚ) (n : ℕ) : List ℚ :=
  (List.range n).map (fun i => (binEdge lo hi n i + binEdge lo hi n (i + 1)) / 2)

/-- Spectrum lower edge, from `np.linspace(0, 100_000, 4097)`. -/
def spectrumLo : ℚ := 0

/-- Spectrum upper edge. -/
def spectrumHi : ℚ := 100000

/-- Number of spectrum bins. -/
def spectrumBins : ℕ := 4096

/-- The fields of `PSDApp` that the core pipeline touches: the retained
decoded dataset (`self.qlong`, `self.qshort`, parallel arrays filtered by
`read_qlong_qshort`) and the last computed tables (`self.last_spectrum_data`
split into centers and counts, and `self.last_psd_data`). -/
structure PSDAppState where
  qlong : List ℤ
  qshort : List ℤ
  lastSpectrumCenters : List ℚ
  lastSpectrumCounts : List ℕ
  lastPsd : List ℚ
  deriving Repr, DecidableEq

/-- State as set up by `PSDApp.__init__`. -/
def initState : PSDAppState where
  qlong := []
  qshort := []
  lastSpectrumCenters := []
  lastSpectrumCounts := []
  lastPsd := []

/-- The shared filtered subset both histograms are computed from:
`applyThreshold` applied to the derived events of the retained dataset. -/
def filteredEvents (enabled : Bool) (threshold : ℚ) (s : PSDAppState) :
    List (ℤ × ℚ) :=
  applyThreshold (derivedEvents s.qlong s.qshort) enabled threshold

/-- `PSDApp.update_plots`: early return if the retained qLong array is
empty; otherwise derive psd values, mask non-finite ones, apply the
threshold filter when enabled, and recompute both tables from the one
filtered subset — the spectrum bins the filtered qLong values into 4096
uniform bins over [0, 100000], and the PSD table stores the filtered psd
values themselves. An empty filtered subset yields empty tables. -/
def update_plots (enabled : Bool) (threshold : ℚ) (s : PSDAppState) :
    PSDAppState :=
  if s.qlong.length = 0 then s
  else
    { s with
      lastSpectrumCenters :=
        if 0 < (filteredEvents enabled threshold s).length then
          binCenters spectrumLo spectrumHi spectrumBins
        else []
      lastSpectrumCounts :=
        if 0 < (filteredEvents enabled threshold s).length then
          histogram ((filteredEvents enabled threshold s).map (fun e => (e.1 : ℚ)))
            spectrumLo spectrumHi spectrumBins
        else []
      lastPsd :=
        if 0 < (filteredEvents enabled threshold s).length then
          (filteredEvents enabled threshold s).map (fun e => e.2)
        else [] }

/-- `PSDApp.load_file` after a file is chosen: decode the records, write
and re-read the CSV to obtain the filtered parallel charge arrays, store
them on the state, and recompute the plots with the current filter
settings. The previously computed tables are only replaced by the
`update_plots` call. -/
def load_file (records : List RawEventRecord) (enabled : Bool) (threshold : ℚ)
    (s : PSDAppState) : PSDAppState :=
  update_plots enabled threshold
    { s with
      qlong := (read_qlong_qshort records).1
      qshort := (read_qlong_qshort records).2 }

/-- Concrete end-to-end input: an 8-byte preamble followed by one record
with title bytes [1,2,3,4], deviceId 7, channelId 1, timestamp 123456789
(little-endian 0x075BCD15), the four CFD/height/baseline fields 0,
qLong 1000 (0x3E8), qShort 300 (0x12C), raw PSD 0, both counters 1,
decimation factor 1 and postfix bytes [0,0,0,0]. -/
def scenarioBytes : List ℕ :=
  [0, 0, 0, 0, 0, 0, 0, 0,
   1, 2, 3, 4,
   7, 0, 0, 0,
   1, 0,
   21, 205, 91, 7, 0, 0, 0, 0,
   0, 0, 0, 0, 0, 0, 0, 0,
   232, 3, 0, 0,
   44, 1, 0, 0,
   0, 0,
   1, 0, 0, 0,
   1, 0, 0, 0,
   1, 0,
   0, 0, 0, 0]

/-- The record the scenario bytes should decode to. -/
def scenarioRecord : RawEventRecord where
  title1 := 1
  title2 := 2
  title3 := 3
  title4 := 4
  deviceId := 7
  channelId := 1
  timestamp := 123456789
  cfd_y1 := 0
  cfd_y2 := 0
  heigth := 0
  baseline := 0
  qLong := 1000
  qShort := 300
  psdValue := 0
  eventCounter := 1
  eventCounterPSD := 1
  decimationFactor := 1
  postfix1 := 0
  postfix2 := 0
  postfix3 := 0
  postfix4 := 0

/-- A state holding the single valid event of the scenario record. -/
def demoState : PSDAppState where
  qlong := [1000]
  qshort := [300]
  lastSpectrumCenters := []
  lastSpectrumCounts := []
  lastPsd := []

/-- A state with no retained events but a nonempty previously computed PSD
table, as arises after loading a dataset with no valid event on top of an
earlier successful load. -/
def staleState : PSDAppState where
  qlong := []
  qshort := []
  lastSpectrumCenters := []
  lastSpectrumCounts := []
  lastPsd := [7 / 10]

/-! ### The decode loop on structured input -/

lemma parseRecordsAux_short (fuel : ℕ) (bs : List ℕ)
    (h : bs.length < recordSize) : parseRecordsAux fuel bs = [] := by
  cases fuel with
  | zero => rfl
  | succ f => simp [parseRecordsAux, h]

lemma parseRecordsAux_flatten (recs : List (List ℕ)) :
    ∀ (fuel : ℕ) (rest : List ℕ),
      (∀ r ∈ recs, r.length = recordSize) → rest.length < recordSize →
      (recs.flatten ++ rest).length ≤ fuel →
      parseRecordsAux fuel (recs.flatten ++ rest) = recs.map decodeRecord := by
  induction recs with
  | nil =>
    intro fuel rest _ hrest _
    simpa using parseRecordsAux_short fuel rest hrest
  | cons r rs ih =>
    intro fuel rest hall hrest hfuel
    have hr : r.length = recordSize := hall r (List.mem_cons_self r rs)
    have hlen : ((r :: rs).flatten ++ rest).length
        = recordSize + (rs.flatten ++ rest).length := by
      simp [List.flatten_cons, hr]
    cases fuel with
    | zero =>
      exfalso
      rw [hlen] at hfuel
      omega
    | succ f =>
      have harr : (r :: rs).flatten ++ rest = r ++ (rs.flatten ++ rest) := by
        simp [List.flatten_cons]
      have hnotshort : ¬ ((r :: rs).flatten ++ rest).length < recordSize := by
        rw [hlen]; omega
      have htake : ((r :: rs).flatten ++ rest).take recordSize = r := by
        rw [harr, ← hr, List.take_left]
      have hdrop : ((r :: rs).flatten ++ rest).drop recordSize = rs.flatten ++ rest := by
        rw [harr, ← hr, List.drop_left]
      rw [parseRecordsAux, if_neg hnotshort, htake, hdrop, List.map_cons]
      congr 1
      apply ih f rest (fun x hx => hall x (List.mem_cons_of_mem r hx)) hrest
      rw [hlen] at hfuel
      omega

/-- Bytes of the preamble followed by complete records and a partial tail
decode to exactly the records, regardless of the tail. -/
lemma parse_bin_file_structured (pre : List ℕ) (recs : List (List ℕ)) (rest : List ℕ)
    (hpre : pre.length = 8) (hall : ∀ r ∈ recs, r.length = recordSize)
    (hrest : rest.length < recordSize) :
    parse_bin_file (pre ++ (recs.flatten ++ rest)) = recs.map decodeRecord := by
  unfold parse_bin_file parseRecords
  rw [← hpre, List.drop_left]
  exact parseRecordsAux_flatten recs _ _ hall hrest le_rfl

/-- C1: an input of an 8-byte preamble, N complete 50-byte records and a
trailing fragment of K < 50 bytes decodes to exactly the N records in
input order; the trailing bytes are dropped silently and the decoded list
does not depend on them. -/
theorem decode_returns_full_records_drops_tail
    (pre : List ℕ) (recs : List (List ℕ)) (rest : List ℕ)
    (hpre : pre.length = 8) (hall : ∀ r ∈ recs, r.length = recordSize)
    (hrest : rest.length < recordSize) :
    parse_bin_file (pre ++ (recs.flatten ++ rest)) = recs.map decodeRecord ∧
    (parse_bin_file (pre ++ (recs.flatten ++ rest))).length = recs.length := by
  refine ⟨parse_bin_file_structured pre recs rest hpre hall hrest, ?_⟩
  rw [parse_bin_file_structured pre recs rest hpre hall hrest]
  exact List.length_map recs decodeRecord

/-- Witness for C1 at a concrete input: one all-zero record plus a 3-byte tail. -/
theorem decode_returns_full_records_drops_tail_witness :
    parse_bin_file (List.replicate 8 0 ++ ([List.replicate 50 0].flatten ++ [1, 2, 3]))
      = [List.replicate 50 0].map decodeRecord ∧
    (parse_bin_file (List.replicate 8 0 ++ ([List.replicate 50 0].flatten ++ [1, 2, 3]))).length
      = [List.replicate 50 0].length :=
  decode_returns_full_records_drops_tail (List.replicate 8 0) [List.replicate 50 0] [1, 2, 3]
    (by decide) (by decide) (by decide)

/-! ### The validity pipeline -/

/-- The composition of the positivity filter of `read_qlong_qshort` with
the finiteness mask of `update_plots` keeps exactly the records satisfying
`qLong > 0`, `qShort ≥ 0` and `qLong ≠ 0` (psd finite), carrying each to
the pair of its qLong and its psd value. -/
lemma derivedEvents_read_qlong_qshort (records : List RawEventRecord) :
    derivedEvents (read_qlong_qshort records).1 (read_qlong_qshort records).2
      = (records.filter
            (fun r => decide (0 < r.qLong ∧ 0 ≤ r.qShort ∧ r.qLong ≠ 0))).map
          (fun r => (r.qLong, 1 - (r.qShort : ℚ) / (r.qLong : ℚ))) := by
  induction records with
  | nil => simp [read_qlong_qshort, derivedEvents]
  | cons r rs ih =>
    simp only [read_qlong_qshort, derivedEvents] at ih ⊢
    by_cases h1 : 0 < r.qLong ∧ 0 ≤ r.qShort
    · have hne : r.qLong ≠ 0 := ne_of_gt h1.1
      simp [List.filter_cons, h1, hne] at ih ⊢
      exact ih
    · have hcomb : ¬ (0 < r.qLong ∧ 0 ≤ r.qShort ∧ r.qLong ≠ 0) := by
        intro hc
        exact h1 ⟨hc.1, hc.2.1⟩
      simp [List.filter_cons, h1, hcomb] at ih ⊢
      exact ih

/-- Evaluating the metric pipeline on the scenario record. -/
lemma scenario_derived :
    derivedEvents (read_qlong_qshort [scenarioRecord]).1
        (read_qlong_qshort [scenarioRecord]).2
      = [((1000 : ℤ), (7 / 10 : ℚ))] := by
  norm_num [derivedEvents, read_qlong_qshort, scenarioRecord, List.filter_cons]

/-- The scenario event passes threshold 1/2. -/
lemma scenario_threshold_half :
    applyThreshold [((1000 : ℤ), (7 / 10 : ℚ))] true (1 / 2)
      = [((1000 : ℤ), (7 / 10 : ℚ))] := by
  norm_num [applyThreshold, List.filter_cons]

/-- The scenario event is excluded at threshold 4/5. -/
lemma scenario_threshold_fourfifths :
    applyThreshold [((1000 : ℤ), (7 / 10 : ℚ))] true (4 / 5) = [] := by
  norm_num [applyThreshold, List.filter_cons]

/-- C2: an event participates in histogram computation (equivalently, is
part of the threshold filter's input `derivedEvents`) iff its record has
qLong > 0, qShort ≥ 0 and a finite psd (qLong ≠ 0, the finiteness of the
float quotient for 32-bit integer operands); the participating events are
exactly the filtered records carried to their (qLong, 1 - qShort/qLong)
pairs, so any record failing a condition — in particular any with
qLong = 0, whatever its qShort — contributes to neither histogram, and no
error is possible since the pipeline is a total function. -/
theorem valid_event_participation (records : List RawEventRecord) :
    derivedEvents (read_qlong_qshort records).1 (read_qlong_qshort records).2
      = (records.filter
            (fun r => decide (0 < r.qLong ∧ 0 ≤ r.qShort ∧ r.qLong ≠ 0))).map
          (fun r => (r.qLong, 1 - (r.qShort : ℚ) / (r.qLong : ℚ))) :=
  derivedEvents_read_qlong_qshort records

/-- C10: every event that reaches the threshold filter and the histograms
has psd ≤ 1, because its record passed qLong > 0 and qShort ≥ 0, making
qShort/qLong nonnegative. -/
theorem psd_le_one (records : List RawEventRecord) (e : ℤ × ℚ)
    (he : e ∈ derivedEvents (read_qlong_qshort records).1
      (read_qlong_qshort records).2) :
    e.2 ≤ 1 := by
  rw [derivedEvents_read_qlong_qshort] at he
  obtain ⟨r, hr, rfl⟩ := List.mem_map.mp he
  have hcond := List.of_mem_filter hr
  simp only [decide_eq_true_eq] at hcond
  obtain ⟨hql, hqs, -⟩ := hcond
  have hdiv : (0 : ℚ) ≤ (r.qShort : ℚ) / (r.qLong : ℚ) := by
    apply div_nonneg
    · exact_mod_cast hqs
    · exact_mod_cast le_of_lt hql
  show 1 - (r.qShort : ℚ) / (r.qLong : ℚ) ≤ 1
  linarith

/-- Witness for C10: the scenario record's event has psd 7/10 ≤ 1. -/
theorem psd_le_one_witness : ((1000 : ℤ), (7 / 10 : ℚ)).2 ≤ 1 :=
  psd_le_one [scenarioRecord] ((1000 : ℤ), (7 / 10 : ℚ))
    (by rw [scenario_derived]; exact List.mem_singleton_self _)

/-- C9: with the threshold fixed, every event returned by the enabled
filter is also returned by the disabled filter — disabling can only add
events, never remove any. -/
theorem filter_disable_superset (events : List (ℤ × ℚ)) (t : ℚ) (e : ℤ × ℚ)
    (he : e ∈ applyThreshold events true t) :
    e ∈ applyThreshold events false t := by
  simp only [applyThreshold, if_pos, if_neg] at he ⊢
  simp only [Bool.false_eq_true, if_false, if_true]
  exact List.mem_of_mem_filter he

/-- Witness for C9 at the scenario event and threshold 1/2. -/
theorem filter_disable_superset_witness :
    ((1000 : ℤ), (7 / 10 : ℚ)) ∈
      applyThreshold [((1000 : ℤ), (7 / 10 : ℚ))] false (1 / 2) :=
  filter_disable_superset [((1000 : ℤ), (7 / 10 : ℚ))] (1 / 2)
    ((1000 : ℤ), (7 / 10 : ℚ))
    (by rw [scenario_threshold_half]; exact List.mem_singleton_self _)

/-- C3: the threshold filter returns all valid events unchanged when
disabled and exactly the events with psd > threshold when enabled (the
filter-equality gives both that every returned event passes and that no
excluded one does); and with the filter enabled both recomputed tables
are produced from the one shared filtered subset — the spectrum bins
exactly the qLong values of the events whose psd passed the threshold,
and the PSD table stores the psd values of those same events. -/
theorem threshold_filter_spec (events : List (ℤ × ℚ)) (t : ℚ)
    (s : PSDAppState) (hs : s.qlong ≠ []) :
    applyThreshold events false t = events ∧
    applyThreshold events true t = events.filter (fun e => decide (t < e.2)) ∧
    (update_plots true t s).lastSpectrumCounts =
      (if 0 < ((derivedEvents s.qlong s.qshort).filter
          (fun e => decide (t < e.2))).length then
        histogram (((derivedEvents s.qlong s.qshort).filter
            (fun e => decide (t < e.2))).map (fun e => (e.1 : ℚ)))
          spectrumLo spectrumHi spectrumBins
      else []) ∧
    (update_plots true t s).lastPsd =
      (if 0 < ((derivedEvents s.qlong s.qshort).filter
          (fun e => decide (t < e.2))).length then
        ((derivedEvents s.qlong s.qshort).filter
            (fun e => decide (t < e.2))).map (fun e => e.2)
      else []) := by
  have hlen : ¬ s.qlong.length = 0 := fun h => hs (List.length_eq_zero.mp h)
  refine ⟨rfl, rfl, ?_, ?_⟩ <;>
    simp [update_plots, filteredEvents, applyThreshold, hlen]

/-- Witness for C3 at the scenario event, threshold 1/2 and the demo state. -/
theorem threshold_filter_spec_witness :
    applyThreshold [((1000 : ℤ), (7 / 10 : ℚ))] false (1 / 2)
        = [((1000 : ℤ), (7 / 10 : ℚ))] ∧
    (update_plots true (1 / 2) demoState).lastPsd =
      (if 0 < ((derivedEvents demoState.qlong demoState.qshort).filter
          (fun e => decide ((1 / 2 : ℚ) < e.2))).length then
        ((derivedEvents demoState.qlong demoState.qshort).filter
            (fun e => decide ((1 / 2 : ℚ) < e.2))).map (fun e => e.2)
      else []) := by
  have h := threshold_filter_spec [((1000 : ℤ), (7 / 10 : ℚ))] (1 / 2) demoState
    (by decide)
  exact ⟨h.1, h.2.2.2⟩

/-- C6 counterexample: decoding a 3-byte input — shorter than the 8-byte
preamble — completes without any failure and silently yields the empty
record list; no FormatError-like failure path exists in `parse_bin_file`,
whose read of the preamble and of each chunk simply returns the bytes
that are present. -/
theorem short_input_counterexample : parse_bin_file [255, 255, 255] = [] := by
  decide

/-- C6 amended: for every input shorter than the 8-byte preamble, the load
completes silently and returns zero records (no error is raised, there
being no failure path in the decoder). -/
theorem short_input_returns_no_records (bs : List ℕ) (h : bs.length < 8) :
    parse_bin_file bs = [] := by
  have hnil : bs.drop 8 = [] := List.drop_eq_nil_of_le (by omega)
  unfold parse_bin_file parseRecords
  rw [hnil]
  rfl

/-- Witness for the amended C6 at a 2-byte input. -/
theorem short_input_returns_no_records_witness : parse_bin_file [1, 2] = [] :=
  short_input_returns_no_records [1, 2] (by decide)

/-- C7 counterexample: load a dataset holding one valid event with the
filter disabled (the PSD table becomes [7/10]), then load a dataset with
zero valid events. The recompute early-returns on the empty retained
array, leaving the previous nonempty PSD table in place instead of
producing an empty one — so "zero valid events" and "all events filtered
out" are distinguishable in the output. -/
theorem empty_dataset_counterexample :
    (load_file [] false (1 / 2)
        (load_file [scenarioRecord] false (1 / 2) initState)).lastPsd ≠ [] := by
  have inner : (load_file [scenarioRecord] false (1 / 2) initState).lastPsd
      = [(7 / 10 : ℚ)] := by
    simp only [load_file, update_plots, filteredEvents]
    norm_num [read_qlong_qshort, scenarioRecord, derivedEvents, applyThreshold,
      initState, List.filter_cons]
  have outer : ∀ s : PSDAppState,
      load_file [] false (1 / 2) s = { s with qlong := [], qshort := [] } := by
    intro s
    simp [load_file, update_plots, read_qlong_qshort]
  rw [outer]
  show (load_file [scenarioRecord] false (1 / 2) initState).lastPsd ≠ []
  rw [inner]
  simp

/-- C7 amended: when the retained dataset is nonempty but the filter
leaves no survivor, recompute produces empty spectrum and PSD tables
without error; when the retained dataset itself is empty, recompute
returns the state unchanged, keeping whatever tables were last computed
(empty only initially). -/
theorem no_survivor_recompute_spec (s : PSDAppState) (en : Bool) (t : ℚ) :
    (s.qlong ≠ [] → filteredEvents en t s = [] →
      (update_plots en t s).lastSpectrumCenters = [] ∧
      (update_plots en t s).lastSpectrumCounts = [] ∧
      (update_plots en t s).lastPsd = []) ∧
    (s.qlong = [] → update_plots en t s = s) := by
  constructor
  · intro hne hf
    have hlen : ¬ s.qlong.length = 0 := fun h => hne (List.length_eq_zero.mp h)
    refine ⟨?_, ?_, ?_⟩ <;> simp [update_plots, hlen, hf]
  · intro h
    simp [update_plots, h]

/-- Witness for the amended C7: threshold 2 filters out the demo state's
single event and empties the PSD table, while on the stale state (empty
retained dataset) recompute is the identity. -/
theorem no_survivor_recompute_spec_witness :
    (update_plots true 2 demoState).lastPsd = [] ∧
    update_plots true 2 staleState = staleState :=
  ⟨((no_survivor_recompute_spec demoState true 2).1 (by decide)
      (by norm_num [filteredEvents, applyThreshold, derivedEvents, demoState,
        List.filter_cons])).2.2,
    (no_survivor_recompute_spec staleState true 2).2 (by decide)⟩

/-- C8: decoding is deterministic — identical byte buffers decode to
identical record lists — and recompute is idempotent on the retained
dataset: running `update_plots` twice with the same flag and threshold
equals running it once (the second run reads only the retained qlong and
qshort arrays, which the first run left untouched, and no byte input is
consulted at all). -/
theorem decode_recompute_deterministic (b1 b2 : List ℕ) (en : Bool) (t : ℚ)
    (s : PSDAppState) (hb : b1 = b2) :
    parse_bin_file b1 = parse_bin_file b2 ∧
    update_plots en t (update_plots en t s) = update_plots en t s := by
  subst hb
  refine ⟨rfl, ?_⟩
  by_cases h0 : s.qlong.length = 0
  · simp [update_plots, h0]
  · simp [update_plots, filteredEvents, h0]

/-- Witness for C8 at concrete bytes and the demo state. -/
theorem decode_recompute_deterministic_witness :
    parse_bin_file [9, 9, 9] = parse_bin_file [9, 9, 9] ∧
    update_plots true (1 / 2) (update_plots true (1 / 2) demoState)
      = update_plots true (1 / 2) demoState :=
  decode_recompute_deterministic [9, 9, 9] [9, 9, 9] true (1 / 2) demoState rfl

/-- C5: the end-to-end scenario. The concrete preamble-plus-one-record
input decodes to exactly the record with the stated field values; the
metric pipeline turns it into the single event (1000, 7/10) — psd is
exactly 1 - 300/1000 = 7/10; with filtering enabled the event is retained
at threshold 1/2 and excluded at threshold 4/5. -/
theorem end_to_end_scenario :
    parse_bin_file scenarioBytes = [scenarioRecord] ∧
    derivedEvents (read_qlong_qshort [scenarioRecord]).1
        (read_qlong_qshort [scenarioRecord]).2
      = [((1000 : ℤ), (7 / 10 : ℚ))] ∧
    applyThreshold [((1000 : ℤ), (7 / 10 : ℚ))] true (1 / 2)
      = [((1000 : ℤ), (7 / 10 : ℚ))] ∧
    applyThreshold [((1000 : ℤ), (7 / 10 : ℚ))] true (4 / 5) = [] :=
  ⟨by decide, scenario_derived, scenario_threshold_half, scenario_threshold_fourfifths⟩

/-! ### Histogram binning -/

lemma countP_or_of_disjoint (l : List ℚ) (p q r : ℚ → Bool)
    (hr : ∀ v, r v = (p v || q v)) (hd : ∀ v, ¬(p v = true ∧ q v = true)) :
    l.countP r = l.countP p + l.countP q := by
  induction l with
  | nil => simp
  | cons a l ih =>
    by_cases hp : p a = true
    · have hq : ¬ q a = true := fun hq => hd a ⟨hp, hq⟩
      simp [List.countP_cons, hr, hp, hq, ih]
      omega
    · by_cases hq : q a = true
      · simp [List.countP_cons, hr, hp, hq, ih]
        omega
      · simp [List.countP_cons, hr, hp, hq, ih]

lemma countP_split_lt (l : List ℚ) (a b c : ℚ) (hab : a ≤ b) (hbc : b ≤ c) :
    l.countP (fun v => decide (a ≤ v ∧ v < b))
        + l.countP (fun v => decide (b ≤ v ∧ v < c))
      = l.countP (fun v => decide (a ≤ v ∧ v < c)) := by
  refine (countP_or_of_disjoint l _ _ _ ?_ ?_).symm
  · intro v
    rw [← Bool.decide_or, decide_eq_decide]
    constructor
    · rintro ⟨h1, h2⟩
      by_cases hvb : v < b
      · exact Or.inl ⟨h1, hvb⟩
      · exact Or.inr ⟨le_of_not_lt hvb, h2⟩
    · rintro (⟨h1, h2⟩ | ⟨h1, h2⟩)
      · exact ⟨h1, lt_of_lt_of_le h2 hbc⟩
      · exact ⟨le_trans hab h1, h2⟩
  · rintro v ⟨h1, h2⟩
    simp only [decide_eq_true_eq] at h1 h2
    exact absurd h2.1 (not_le.mpr h1.2)

lemma countP_split_le (l : List ℚ) (a b c : ℚ) (hab : a ≤ b) (hbc : b ≤ c) :
    l.countP (fun v => decide (a ≤ v ∧ v < b))
        + l.countP (fun v => decide (b ≤ v ∧ v ≤ c))
      = l.countP (fun v => decide (a ≤ v ∧ v ≤ c)) := by
  refine (countP_or_of_disjoint l _ _ _ ?_ ?_).symm
  · intro v
    rw [← Bool.decide_or, decide_eq_decide]
    constructor
    · rintro ⟨h1, h2⟩
      by_cases hvb : v < b
      · exact Or.inl ⟨h1, hvb⟩
      · exact Or.inr ⟨le_of_not_lt hvb, h2⟩
    · rintro (⟨h1, h2⟩ | ⟨h1, h2⟩)
      · exact ⟨h1, le_trans (le_of_lt h2) hbc⟩
      · exact ⟨le_trans hab h1, h2⟩
  · rintro v ⟨h1, h2⟩
    simp only [decide_eq_true_eq] at h1 h2
    exact absurd h2.1 (not_le.mpr h1.2)

lemma binEdge_zero (lo hi : ℚ) (n : ℕ) : binEdge lo hi n 0 = lo := by
  simp [binEdge]

lemma binEdge_width (lo hi : ℚ) (n i : ℕ) :
    binEdge lo hi n (i + 1) - binEdge lo hi n i = (hi - lo) / (n : ℚ) := by
  unfold binEdge
  push_cast
  ring

lemma binEdge_last (lo hi : ℚ) (n : ℕ) (hn : n ≠ 0) : binEdge lo hi n n = hi := by
  have h : (n : ℚ) ≠ 0 := Nat.cast_ne_zero.mpr hn
  unfold binEdge
  field_simp

lemma binEdge_mono (lo hi : ℚ) (n : ℕ) (hlh : lo ≤ hi) {i j : ℕ} (hij : i ≤ j) :
    binEdge lo hi n i ≤ binEdge lo hi n j := by
  unfold binEdge
  have hw : (0 : ℚ) ≤ (hi - lo) / (n : ℚ) :=
    div_nonneg (by linarith) (Nat.cast_nonneg n)
  have hc : (i : ℚ) ≤ (j : ℚ) := Nat.cast_le.mpr hij
  nlinarith

lemma lo_le_binEdge (lo hi : ℚ) (n : ℕ) (hlh : lo ≤ hi) (i : ℕ) :
    lo ≤ binEdge lo hi n i := by
  have := binEdge_mono lo hi n hlh (Nat.zero_le i)
  rwa [binEdge_zero] at this

lemma binCount_mid (values : List ℚ) (lo hi : ℚ) (n i : ℕ) (h : ¬ i + 1 = n) :
    binCount values lo hi n i
      = values.countP
          (fun v => decide (binEdge lo hi n i ≤ v ∧ v < binEdge lo hi n (i + 1))) := by
  unfold binCount binMemB
  congr 1
  funext v
  rw [if_neg h, Bool.decide_and]

lemma binCount_last (values : List ℚ) (lo hi : ℚ) (n i : ℕ) (h : i + 1 = n)
    (hn : n ≠ 0) :
    binCount values lo hi n i
      = values.countP (fun v => decide (binEdge lo hi n i ≤ v ∧ v ≤ hi)) := by
  unfold binCount binMemB
  congr 1
  funext v
  rw [if_pos h, binEdge_last lo hi n hn, Bool.decide_and]

lemma histogram_partial_sum (values : List ℚ) (lo hi : ℚ) (n : ℕ)
    (hlh : lo ≤ hi) :
    ∀ k, k < n →
      ((List.range k).map (binCount values lo hi n)).sum
        = values.countP (fun v => decide (lo ≤ v ∧ v < binEdge lo hi n k)) := by
  intro k
  induction k with
  | zero =>
    intro _
    rw [binEdge_zero]
    symm
    simp only [List.range_zero, List.map_nil, List.sum_nil]
    rw [List.countP_eq_zero]
    intro v _
    simp only [decide_eq_true_eq, not_and, not_lt]
    exact fun h => h
  | succ k ih =>
    intro hk1
    have hk : k < n := Nat.lt_of_succ_lt hk1
    rw [List.range_succ, List.map_append, List.sum_append]
    simp only [List.map_cons, List.map_nil, List.sum_cons, List.sum_nil, add_zero]
    rw [ih hk, binCount_mid values lo hi n k (Nat.ne_of_lt hk1)]
    exact countP_split_lt values lo (binEdge lo hi n k) (binEdge lo hi n (k + 1))
      (lo_le_binEdge lo hi n hlh k) (binEdge_mono lo hi n hlh (Nat.le_succ k))

lemma histogram_sum_eq (values : List ℚ) (lo hi : ℚ) (n : ℕ) (hn : 0 < n)
    (hlh : lo < hi) :
    (histogram values lo hi n).sum
      = values.countP (fun v => decide (lo ≤ v ∧ v ≤ hi)) := by
  obtain ⟨m, rfl⟩ : ∃ m, n = m + 1 := ⟨n - 1, by omega⟩
  unfold histogram
  rw [List.range_succ, List.map_append, List.sum_append]
  simp only [List.map_cons, List.map_nil, List.sum_cons, List.sum_nil, add_zero]
  rw [histogram_partial_sum values lo hi (m + 1) (le_of_lt hlh) m (Nat.lt_succ_self m),
    binCount_last values lo hi (m + 1) m rfl (Nat.succ_ne_zero m)]
  have hb : binEdge lo hi (m + 1) m ≤ hi := by
    have h := binEdge_mono lo hi (m + 1) (le_of_lt hlh) (Nat.le_succ m)
    rwa [binEdge_last lo hi (m + 1) (Nat.succ_ne_zero m)] at h
  exact countP_split_le values lo (binEdge lo hi (m + 1) m) hi
    (lo_le_binEdge lo hi (m + 1) (le_of_lt hlh) m) hb

lemma binMemB_out_of_range (lo hi v : ℚ) (n i : ℕ) (hlh : lo ≤ hi) (hi_lt : i < n)
    (hv : v < lo ∨ hi < v) : binMemB lo hi n i v = false := by
  unfold binMemB
  rcases hv with hv | hv
  · have : ¬ binEdge lo hi n i ≤ v :=
      fun h => absurd (le_trans (lo_le_binEdge lo hi n hlh i) h) (not_le.mpr hv)
    simp [this]
  · by_cases h : i + 1 = n
    · have : ¬ v ≤ binEdge lo hi n n := by
        rw [binEdge_last lo hi n (by omega)]
        exact not_le.mpr hv
      simp [h, this]
    · have hle : binEdge lo hi n (i + 1) ≤ hi := by
        have hm := binEdge_mono lo hi n hlh (show i + 1 ≤ n by omega)
        rwa [binEdge_last lo hi n (by omega)] at hm
      have : ¬ v < binEdge lo hi n (i + 1) :=
        fun hlt => absurd (lt_of_lt_of_le hlt hle) (not_lt.mpr (le_of_lt hv))
      simp [h, this]

/-- C4: for every value sequence and every uniform bin configuration with
at least one bin and a nondegenerate range, the sum of all bin counts —
bins half-open `[lo, hi)` except the final bin closed `[lo, hi]` — equals
exactly the number of input values within `[min, max]` inclusive of the
final edge; a value strictly outside the configured range lands in no bin
(and binning, a total function, raises no error); and the spectrum
configuration has exactly 4096 bins spanning 0 to 100000 with uniform
width 100000/4096. -/
theorem histogram_bin_semantics (values : List ℚ) (lo hi : ℚ) (n : ℕ)
    (hn : 0 < n) (hlh : lo < hi) :
    (histogram values lo hi n).sum
        = values.countP (fun v => decide (lo ≤ v ∧ v ≤ hi)) ∧
    (∀ i, i < n → ∀ v, (v < lo ∨ hi < v) → binMemB lo hi n i v = false) ∧
    (histogram values spectrumLo spectrumHi spectrumBins).length = 4096 ∧
    binEdge spectrumLo spectrumHi spectrumBins 0 = 0 ∧
    binEdge spectrumLo spectrumHi spectrumBins spectrumBins = 100000 ∧
    ∀ i, binEdge spectrumLo spectrumHi spectrumBins (i + 1)
        - binEdge spectrumLo spectrumHi spectrumBins i = 100000 / 4096 := by
  refine ⟨histogram_sum_eq values lo hi n hn hlh, ?_, ?_, ?_, ?_, ?_⟩
  · intro i hi_lt v hv
    exact binMemB_out_of_range lo hi v n i (le_of_lt hlh) hi_lt hv
  · simp [histogram, spectrumBins]
  · exact binEdge_zero spectrumLo spectrumHi spectrumBins
  · rw [binEdge_last spectrumLo spectrumHi spectrumBins (by norm_num [spectrumBins])]
    rfl
  · intro i
    rw [binEdge_width]
    norm_num [spectrumLo, spectrumHi, spectrumBins]

/-- Witness for C4: a one-value list over two bins on [0, 10], plus the
spectrum's first bin width. -/
theorem histogram_bin_semantics_witness :
    (histogram [(5 : ℚ)] 0 10 2).sum
        = ([(5 : ℚ)].countP (fun v => decide ((0 : ℚ) ≤ v ∧ v ≤ 10))) ∧
    binMemB 0 10 2 0 (11 : ℚ) = false ∧
    binEdge spectrumLo spectrumHi spectrumBins 1
        - binEdge spectrumLo spectrumHi spectrumBins 0 = 100000 / 4096 := by
  have h := histogram_bin_semantics [(5 : ℚ)] 0 10 2 (by norm_num) (by norm_num)
  exact ⟨h.1, h.2.1 0 (by norm_num) 11 (by norm_num), h.2.2.2.2.2 0⟩

